import Mathlib

/-!
Verification of the space-layout planner and file-lock error mapping of the
redb page store (`src/tree_store/page_store/layout.rs` and
`src/tree_store/page_store/mmap/unix.rs`).

The Rust code is shallowly embedded: `u32`/`u64`/`usize` values are `Nat`s,
and every arithmetic operation that can wrap in release builds is modelled
with an explicit reduction modulo `2^32` or `2^64`.  Operations that can
abort (a failed `assert!`, an out-of-range `try_into().unwrap()`, a division
by zero) are modelled by an outer `Option`: `none` is the abnormal-termination
marker, `some x` is a normal return of `x`.  Rust's `Result`/`Option` results
live inside that outer layer (`Option (Except ...)` / `Option (Option ...)`).

The collaborating constants and size functions (`DB_HEADER_SIZE`,
`MIN_USABLE_PAGES`, `MAX_MAX_PAGE_ORDER`, `BuddyAllocatorMut::required_space`,
`RegionTracker::required_bytes`) live in files that are not part of this
repository snapshot; they are modelled from the spec as an abstract
`Externals` structure of injected pure functions, exactly as the spec's design
notes prescribe, and every development-level theorem is proved for an
arbitrary such structure (with explicitly stated realistic bounds where they
are needed).  `stubExternals` is one concrete instantiation used to evaluate
the model on concrete inputs.
-/

namespace Redb

/-- `2^32`, the modulus of Rust `u32` arithmetic. -/
def U32 : Nat := 4294967296

/-- `2^64`, the modulus of Rust `u64`/`usize` arithmetic (64-bit target). -/
def U64 : Nat := 18446744073709551616

/-- Truncation to `u32` (the effect of `as u32` and of wrapping `u32` ops). -/
def u32 (n : Nat) : Nat := n % U32

/-- Truncation to `u64`/`usize`. -/
def u64 (n : Nat) : Nat := n % U64

/-- Wrapping `u64` subtraction `a - b` for `a, b < 2^64` (release-build
semantics of Rust `u64`/`usize` subtraction). -/
def u64sub (a b : Nat) : Nat := (a + (U64 - b % U64)) % U64

/-- Modelled from the spec: the external collaborators consumed by the layout
planner.  `DB_HEADER_SIZE` (fixed header size), `MIN_USABLE_PAGES` (minimum
region usability threshold) and `MAX_MAX_PAGE_ORDER` (upper bound on the
allocator addressable span) are `usize` constants of `page_manager.rs`, and
`required_space` / `required_bytes` are the `BuddyAllocatorMut` and
`RegionTracker` sizing contracts (`capacity -> byte count`), all outside this
repository snapshot.  The spec's design notes say to model them as injected
pure functions so the planner can be analysed against a stub. -/
structure Externals where
  DB_HEADER_SIZE : Nat
  MIN_USABLE_PAGES : Nat
  MAX_MAX_PAGE_ORDER : Nat
  required_space : Nat → Nat
  required_bytes : Nat → Nat → Nat

/-- A concrete sane instantiation of the externals, used to run the model on
concrete inputs (`MIN_USABLE_PAGES`-style values follow the spec's
description of small fixed constants; the size functions are linear, as the
spec's `capacity -> byte count` contract suggests). -/
def stubExternals : Externals :=
  ⟨64, 10, 20, fun n => 8 * n, fun regions orders => 16 + 8 * regions * orders⟩

/-- `RegionLayout` (layout.rs lines 24-30): `num_pages`, `header_pages` and
`page_size` are `u32` fields. -/
structure RegionLayout where
  num_pages : Nat
  header_pages : Nat
  page_size : Nat
deriving DecidableEq, Repr

namespace RegionLayout

/-- `RegionLayout::header_pages` (layout.rs lines 50-59): the buddy-allocator
header size for `page_capacity` pages, rounded up to whole pages.  The
`as u32` cast truncates, and the `+=` is wrapping `u32` addition in release
builds.  Division by a zero `page_size` would panic in Rust; callers of this
helper in the model guard `page_size ≠ 0` where Rust would panic. -/
def headerPages (E : Externals) (page_capacity page_size : Nat) : Nat :=
  let header_size := u32 (E.required_space page_capacity)
  let header_size :=
    if header_size % page_size ≠ 0 then
      u32 (header_size + (page_size - header_size % page_size))
    else header_size
  header_size / page_size

/-- `RegionLayout::calculate_usable_pages` (layout.rs lines 41-48).  The
`assert!(header_pages * page_size < space)` and the
`try_into::<u32>().unwrap()` are the two abnormal exits, modelled as `none`.
The multiplication is performed in `u64` on operands below `2^32`, so it is
exact. -/
def calculate_usable_pages (E : Externals) (space page_capacity page_size : Nat) :
    Option Nat :=
  let hp := headerPages E page_capacity page_size
  if hp * page_size < space then
    let n := (space - hp * page_size) / page_size
    if n < U32 then some n else none
  else none

/-- `RegionLayout::calculate` (layout.rs lines 61-89).  Outer `none` is a
panic (division by a zero `page_size`, a failed internal assertion, or an
out-of-range `u32` conversion); `some none` is Rust's `None`; `some (some r)`
is `Some(r)`.  `required_header_bytes` is a wrapping `u32` product, the
`MIN_USABLE_PAGES as u32` cast truncates, and `max_region_size` is a wrapping
`u64` sum, exactly as in the source. -/
def calculate (E : Externals)
    (available_space desired_usable_bytes page_capacity page_size : Nat) :
    Option (Option RegionLayout) :=
  if page_size = 0 then none
  else
    let hp := headerPages E page_capacity page_size
    let required_header_bytes := u32 (hp * page_size)
    if desired_usable_bytes / page_size < E.MIN_USABLE_PAGES then some none
    else if available_space <
        u32 (required_header_bytes + u32 (u32 E.MIN_USABLE_PAGES * page_size)) then
      some none
    else
      let max_region_size := u64 (desired_usable_bytes + required_header_bytes)
      let used_space := min max_region_size available_space
      match calculate_usable_pages E used_space page_capacity page_size with
      | none => none
      | some num_pages =>
        if num_pages < u32 E.MIN_USABLE_PAGES then some none
        else some (some ⟨num_pages, hp, page_size⟩)

/-- `RegionLayout::full_region_layout` (layout.rs lines 91-104): calls
`calculate` with `available_space == desired_usable_bytes + header_bytes` for
the maximal region and unwraps; a `None` (or an inner panic) is an abnormal
exit, modelled as `none`. -/
def full_region_layout (E : Externals) (page_capacity page_size : Nat) :
    Option RegionLayout :=
  let max_usable_region_bytes := u64 (page_capacity * page_size)
  let header_bytes := u64 (headerPages E page_capacity page_size * page_size)
  let max_region_size := u64 (max_usable_region_bytes + header_bytes)
  match calculate E max_region_size max_usable_region_bytes page_capacity page_size with
  | some (some r) => some r
  | _ => none

/-- `RegionLayout::usable_bytes` (layout.rs lines 124-126): a `u64` product of
two `u32` fields; it cannot wrap, so it is an exact product. -/
def usable_bytes (r : RegionLayout) : Nat := r.page_size * r.num_pages

/-- `RegionLayout::len` (layout.rs lines 120-122): header bytes plus usable
bytes; the `u64` sum of the two sub-`2^64` summands can wrap. -/
def len (r : RegionLayout) : Nat :=
  u64 (r.header_pages * r.page_size + r.usable_bytes)

end RegionLayout

/-- The error kind of a failed OS call, as classified by
`std::io::ErrorKind`; only `WouldBlock` is inspected by the code under
verification, the other constructors stand for every other kind. -/
inductive IoErrorKind
  | WouldBlock
  | PermissionDenied
  | Other
deriving DecidableEq, Repr

/-- The error type of this subsystem (`Error` in the crate): `OutOfSpace`
from layout planning, `DatabaseAlreadyOpen` from lock contention, and a
generic wrapped OS error. -/
inductive DbError
  | OutOfSpace
  | DatabaseAlreadyOpen
  | IoFailure (kind : IoErrorKind)
deriving DecidableEq, Repr

/-- `DatabaseLayout` (layout.rs lines 129-136).  The source field
`trailing_partial_region` is named `trailing_region` here; the
`region_tracker_range: Range<usize>` is kept as its two endpoints. -/
structure DatabaseLayout where
  superheader_pages : Nat
  region_tracker_start : Nat
  region_tracker_end : Nat
  full_region_layout : RegionLayout
  num_full_regions : Nat
  trailing_region : Option RegionLayout
deriving DecidableEq, Repr

/-- `min_header_size` (layout.rs lines 163-164): `DB_HEADER_SIZE +
RegionTracker::required_bytes(1, MAX_MAX_PAGE_ORDER + 1)`, a `usize` sum. -/
def minHeaderSize (E : Externals) : Nat :=
  u64 (E.DB_HEADER_SIZE + E.required_bytes 1 (E.MAX_MAX_PAGE_ORDER + 1))

/-- `max_regions` (layout.rs lines 165-169):
`((db_capacity - min_header_size + full_len - 1) / full_len).try_into().unwrap()`
with wrapping `u64` subtraction and addition.  `none` models the panic from a
division by a zero `full_len` or from a quotient above `u32::MAX`. -/
def maxRegions (db_capacity min_header_size full_len : Nat) : Option Nat :=
  if full_len = 0 then none
  else
    let q := u64sub (u64 (u64sub db_capacity min_header_size + full_len)) 1 / full_len
    if q < U32 then some q else none

/-- `db_header_bytes` (layout.rs lines 170-171). -/
def dbHeaderBytes (E : Externals) (max_regions : Nat) : Nat :=
  u64 (E.DB_HEADER_SIZE + E.required_bytes max_regions (E.MAX_MAX_PAGE_ORDER + 1))

/-- `round_up_to_multiple_of` (layout.rs lines 14-20): `usize` arithmetic;
the `value + multiple` sum can wrap.  Callers guarantee `multiple ≠ 0`
(a zero `page_size` already panics earlier in Rust). -/
def round_up_to_multiple_of (value multiple : Nat) : Nat :=
  if value % multiple = 0 then value
  else u64sub (u64 (value + multiple)) (value % multiple)

/-- The page-aligned superheader size that `DatabaseLayout::calculate`
computes in layout.rs lines 162-174, as a standalone function of the inputs
(`none` when that computation itself aborts). -/
def superheaderBytes (E : Externals) (db_capacity page_capacity page_size : Nat) :
    Option Nat :=
  match RegionLayout.full_region_layout E page_capacity page_size with
  | none => none
  | some full =>
    match maxRegions db_capacity (minHeaderSize E) full.len with
    | none => none
    | some mr => some (round_up_to_multiple_of (dbHeaderBytes E mr) page_size)

/-- The `assert_eq!(region.header_pages, full_region_layout.header_pages)` of
layout.rs lines 214-217, as a decidable check. -/
def trailing_header_matches : Option RegionLayout → RegionLayout → Bool
  | some r, full => r.header_pages == full.header_pages
  | none, _ => true

/-- `DatabaseLayout::calculate` (layout.rs lines 155-228).  Outer `none` is a
panic (an aborted subcomputation, the `assert!(num_full_regions > 0)`, the
trailing-header `assert_eq!`, a failed `try_into().unwrap()`, the `div_even`
assertion, or a division by zero); `some (Except.error ...)` / `some
(Except.ok ...)` are the Rust `Err` / `Ok` returns. -/
def DatabaseLayout.calculate (E : Externals)
    (db_capacity desired_usable_bytes0 page_capacity page_size : Nat) :
    Option (Except DbError DatabaseLayout) :=
  let desired_usable_bytes := min desired_usable_bytes0 db_capacity
  match RegionLayout.full_region_layout E page_capacity page_size with
  | none => none
  | some full_region_layout =>
    match maxRegions db_capacity (minHeaderSize E) full_region_layout.len with
    | none => none
    | some max_regions =>
      let db_header_bytes := dbHeaderBytes E max_regions
      let superheader_bytes := round_up_to_multiple_of db_header_bytes page_size
      if db_capacity < u64 (superheader_bytes + u64 (E.MIN_USABLE_PAGES * page_size)) then
        some (Except.error DbError.OutOfSpace)
      else if desired_usable_bytes ≤ full_region_layout.usable_bytes ∨
          u64sub db_capacity superheader_bytes ≤ full_region_layout.len then
        match RegionLayout.calculate E (u64sub db_capacity superheader_bytes)
            desired_usable_bytes page_capacity page_size with
        | none => none
        | some none => some (Except.error DbError.OutOfSpace)
        | some (some region_layout) =>
          if u32 superheader_bytes % page_size = 0 then
            some (Except.ok
              ⟨u32 superheader_bytes / page_size, E.DB_HEADER_SIZE, db_header_bytes,
                full_region_layout, 0, some region_layout⟩)
          else none
      else
        if full_region_layout.usable_bytes = 0 then none
        else
          let max_full_regions :=
            u64sub db_capacity superheader_bytes / full_region_layout.len
          let desired_full_regions :=
            desired_usable_bytes / full_region_layout.usable_bytes
          let num_full_regions := min max_full_regions desired_full_regions
          let remaining_space := u64sub (u64sub db_capacity superheader_bytes)
            (u64 (num_full_regions * full_region_layout.len))
          let remaining_desired := u64sub desired_usable_bytes
            (u64 (num_full_regions * full_region_layout.usable_bytes))
          if num_full_regions = 0 then none
          else
            match RegionLayout.calculate E remaining_space remaining_desired
                page_capacity page_size with
            | none => none
            | some trailing_region =>
              if trailing_header_matches trailing_region full_region_layout then
                if num_full_regions < U32 then
                  if u32 superheader_bytes % page_size = 0 then
                    some (Except.ok
                      ⟨u32 superheader_bytes / page_size, E.DB_HEADER_SIZE,
                        db_header_bytes, full_region_layout, num_full_regions,
                        trailing_region⟩)
                  else none
                else none
              else none

namespace DatabaseLayout

/-- `DatabaseLayout::num_regions` (layout.rs lines 242-248); the `+ 1` is a
wrapping `u32` addition. -/
def num_regions (l : DatabaseLayout) : Nat :=
  if l.trailing_region.isSome then u32 (l.num_full_regions + 1)
  else l.num_full_regions

/-- `DatabaseLayout::usable_bytes` (layout.rs lines 255-262): full regions'
usable bytes plus the trailing region's (`unwrap_or_default` is `0`), with
wrapping `u64` product and sum. -/
def usable_bytes (l : DatabaseLayout) : Nat :=
  let trailing := (l.trailing_region.map RegionLayout.usable_bytes).getD 0
  u64 (u64 (l.num_full_regions * l.full_region_layout.usable_bytes) + trailing)

/-- `DatabaseLayout::superheader_bytes` (layout.rs lines 268-270): a wrapping
`u32` product cast to `usize`. -/
def superheader_bytes (l : DatabaseLayout) : Nat :=
  u32 (l.superheader_pages * l.full_region_layout.page_size)

/-- `DatabaseLayout::region_base_address` (layout.rs lines 276-282): the
`assert!(region < num_regions)` is the abnormal exit; the `u64` product and
sum wrap; the `usize` conversion is lossless on a 64-bit target. -/
def region_base_address (l : DatabaseLayout) (region : Nat) : Option Nat :=
  if region < l.num_regions then
    some (u64 (l.superheader_bytes + u64 (region * l.full_region_layout.len)))
  else none

/-- `DatabaseLayout::region_layout` (layout.rs lines 284-291): asserts the
index is in range, then returns the trailing region (whose absence would make
the `unwrap` panic) or the full layout. -/
def region_layout (l : DatabaseLayout) (region : Nat) : Option RegionLayout :=
  if region < l.num_regions then
    if region = l.num_full_regions then l.trailing_region
    else some l.full_region_layout
  else none

/-- `DatabaseLayout::len` (layout.rs lines 250-253): addresses region
`num_regions() - 1`; with zero regions the wrapping `u32` subtraction makes
the subsequent bounds assertion fail, an abnormal exit. -/
def len (l : DatabaseLayout) : Option Nat :=
  if l.num_regions = 0 then none
  else
    let last := l.num_regions - 1
    match l.region_base_address last, l.region_layout last with
    | some b, some r => some (u64 (b + r.len))
    | _, _ => none

end DatabaseLayout

/-- The in-source error classification of `FileLock::new` (mmap/unix.rs lines
9-23): on a nonzero `flock` result, a `WouldBlock` OS error becomes
`DatabaseAlreadyOpen` and anything else becomes a generic wrapped OS error;
a zero result is success. -/
def FileLock.new (flock_result : Int) (last_os_error : IoErrorKind) :
    Except DbError Unit :=
  if flock_result ≠ 0 then
    if last_os_error = IoErrorKind.WouldBlock then
      Except.error DbError.DatabaseAlreadyOpen
    else Except.error (DbError.IoFailure last_os_error)
  else Except.ok ()

/-- Modelled from the spec: `libc::flock(fd, LOCK_EX | LOCK_NB)` on a file
whose advisory-lock state is `held` (held by another process).  The spec:
acquisition is non-blocking, and contention — the lock already held by
another process — is reported by the OS as a would-block failure; otherwise
the exclusive lock is granted.  Returns the syscall result, the
`last_os_error` kind (only meaningful on failure), and the new lock state. -/
def flock_nb (held : Bool) : Int × IoErrorKind × Bool :=
  if held then (-1, IoErrorKind.WouldBlock, true)
  else (0, IoErrorKind.Other, true)

/-- One `FileLock::new` acquisition against the modelled OS lock state:
the classified result together with the state seen by the next caller. -/
def FileLock.acquire (held : Bool) : Except DbError Unit × Bool :=
  (FileLock.new (flock_nb held).1 (flock_nb held).2.1, (flock_nb held).2.2)


theorem U32_pos : 0 < U32 := by unfold U32; omega

theorem U64_pos : 0 < U64 := by unfold U64; omega

theorem u32_lt (n : Nat) : u32 n < U32 := Nat.mod_lt _ U32_pos

theorem u64_lt (n : Nat) : u64 n < U64 := Nat.mod_lt _ U64_pos

theorem u32_eq_of_lt {n : Nat} (h : n < U32) : u32 n = n := Nat.mod_eq_of_lt h

theorem u64_eq_of_lt {n : Nat} (h : n < U64) : u64 n = n := Nat.mod_eq_of_lt h

theorem u64sub_lt (a b : Nat) : u64sub a b < U64 := Nat.mod_lt _ U64_pos

theorem u64sub_eq_sub {a b : Nat} (hb : b ≤ a) (ha : a < U64) : u64sub a b = a - b := by
  unfold u64sub
  rw [Nat.mod_eq_of_lt (by omega : b < U64)]
  have h1 : a + (U64 - b) = (a - b) + U64 := by omega
  rw [h1, Nat.add_mod_right, Nat.mod_eq_of_lt (by omega)]

theorem headerPages_mul_lt (E : Externals) (pc ps : Nat) :
    RegionLayout.headerPages E pc ps * ps < U32 := by
  unfold RegionLayout.headerPages
  dsimp only
  split
  · exact lt_of_le_of_lt (Nat.div_mul_le_self _ _) (u32_lt _)
  · exact lt_of_le_of_lt (Nat.div_mul_le_self _ _) (u32_lt _)

theorem RegionLayout.calculate_usable_pages_some {E : Externals}
    {space pc ps n : Nat}
    (h : RegionLayout.calculate_usable_pages E space pc ps = some n) :
    RegionLayout.headerPages E pc ps * ps < space ∧
    n = (space - RegionLayout.headerPages E pc ps * ps) / ps ∧ n < U32 := by
  unfold RegionLayout.calculate_usable_pages at h
  dsimp only at h
  split at h
  · split at h
    · have hn := Option.some.inj h
      subst hn
      exact ⟨by assumption, rfl, by assumption⟩
    · exact absurd h (by simp)
  · exact absurd h (by simp)

theorem RegionLayout.calculate_some_facts {E : Externals}
    {avail desired pc ps : Nat} {r : RegionLayout}
    (hd : desired < U64)
    (h : RegionLayout.calculate E avail desired pc ps = some (some r)) :
    ps ≠ 0 ∧
    r.header_pages = RegionLayout.headerPages E pc ps ∧
    r.page_size = ps ∧
    desired + RegionLayout.headerPages E pc ps * ps < U64 ∧
    RegionLayout.headerPages E pc ps * ps <
      min (desired + RegionLayout.headerPages E pc ps * ps) avail ∧
    r.num_pages =
      (min (desired + RegionLayout.headerPages E pc ps * ps) avail -
        RegionLayout.headerPages E pc ps * ps) / ps ∧
    r.num_pages < U32 ∧
    E.MIN_USABLE_PAGES % U32 ≤ r.num_pages ∧
    E.MIN_USABLE_PAGES ≤ desired / ps := by
  by_cases hps : ps = 0
  · rw [RegionLayout.calculate, if_pos hps] at h
    exact absurd h (by simp)
  rw [RegionLayout.calculate, if_neg hps] at h
  dsimp only at h
  have hB : RegionLayout.headerPages E pc ps * ps < U32 := headerPages_mul_lt E pc ps
  rw [u32_eq_of_lt hB] at h
  by_cases hc1 : desired / ps < E.MIN_USABLE_PAGES
  · rw [if_pos hc1] at h
    exact absurd h (by simp)
  rw [if_neg hc1] at h
  by_cases hc2 : avail < u32 (RegionLayout.headerPages E pc ps * ps +
      u32 (u32 E.MIN_USABLE_PAGES * ps))
  · rw [if_pos hc2] at h
    exact absurd h (by simp)
  rw [if_neg hc2] at h
  rcases hcup : RegionLayout.calculate_usable_pages E
      (min (u64 (desired + RegionLayout.headerPages E pc ps * ps)) avail) pc ps with _ | np
  · rw [hcup] at h
    exact absurd h (by simp)
  rw [hcup] at h
  dsimp only at h
  by_cases hmin : np < u32 E.MIN_USABLE_PAGES
  · rw [if_pos hmin] at h
    exact absurd h (by simp)
  rw [if_neg hmin] at h
  have hr : r = ⟨np, RegionLayout.headerPages E pc ps, ps⟩ :=
    (Option.some.inj (Option.some.inj h)).symm
  obtain ⟨hassert, hnp, hnplt⟩ := RegionLayout.calculate_usable_pages_some hcup
  have hnowrap : desired + RegionLayout.headerPages E pc ps * ps < U64 := by
    by_contra hge
    push_neg at hge
    have h1 : u64 (desired + RegionLayout.headerPages E pc ps * ps) =
        desired + RegionLayout.headerPages E pc ps * ps - U64 := by
      unfold u64 U64 U32 at *
      omega
    rw [h1] at hassert
    have h3 : min (desired + RegionLayout.headerPages E pc ps * ps - U64) avail ≤
        desired + RegionLayout.headerPages E pc ps * ps - U64 := Nat.min_le_left _ _
    unfold U64 U32 at *
    omega
  rw [u64_eq_of_lt hnowrap] at hassert hnp
  subst hr
  refine ⟨hps, rfl, rfl, hnowrap, hassert, hnp, hnplt, ?_, by omega⟩
  show E.MIN_USABLE_PAGES % U32 ≤ np
  unfold u32 at hmin
  omega

theorem RegionLayout.calculate_some_len {E : Externals}
    {avail desired pc ps : Nat} {r : RegionLayout}
    (hd : desired < U64)
    (h : RegionLayout.calculate E avail desired pc ps = some (some r)) :
    r.len = RegionLayout.headerPages E pc ps * ps +
      ps * ((min (desired + RegionLayout.headerPages E pc ps * ps) avail -
        RegionLayout.headerPages E pc ps * ps) / ps) ∧
    r.len ≤ avail ∧ r.len ≤ desired + RegionLayout.headerPages E pc ps * ps ∧
    r.usable_bytes ≤ desired := by
  obtain ⟨hps, hhp, hpsz, hnowrap, hassert, hnp, hnplt, hminle, hdiv⟩ :=
    RegionLayout.calculate_some_facts hd h
  have hmul : ps * (((min (desired + RegionLayout.headerPages E pc ps * ps) avail) -
      RegionLayout.headerPages E pc ps * ps) / ps) ≤
      (min (desired + RegionLayout.headerPages E pc ps * ps) avail) -
        RegionLayout.headerPages E pc ps * ps := by
    rw [Nat.mul_comm]
    exact Nat.div_mul_le_self _ _
  have husable : r.usable_bytes =
      ps * ((min (desired + RegionLayout.headerPages E pc ps * ps) avail -
        RegionLayout.headerPages E pc ps * ps) / ps) := by
    rw [RegionLayout.usable_bytes, hpsz, hnp]
  have hmin1 : min (desired + RegionLayout.headerPages E pc ps * ps) avail ≤
      desired + RegionLayout.headerPages E pc ps * ps := Nat.min_le_left _ _
  have hmin2 : min (desired + RegionLayout.headerPages E pc ps * ps) avail ≤ avail :=
    Nat.min_le_right _ _
  have hlen : r.len = RegionLayout.headerPages E pc ps * ps +
      ps * ((min (desired + RegionLayout.headerPages E pc ps * ps) avail -
        RegionLayout.headerPages E pc ps * ps) / ps) := by
    rw [RegionLayout.len, hhp, hpsz, husable]
    exact u64_eq_of_lt (by omega)
  refine ⟨hlen, by omega, by omega, by omega⟩

theorem RegionLayout.full_region_layout_facts {E : Externals} {pc ps : Nat}
    {f : RegionLayout} (hpc : pc < U32) (hps : ps < U32)
    (h : RegionLayout.full_region_layout E pc ps = some f) :
    f.num_pages = pc ∧ f.header_pages = RegionLayout.headerPages E pc ps ∧
    f.page_size = ps ∧ ps ≠ 0 ∧
    E.MIN_USABLE_PAGES % U32 ≤ pc ∧ E.MIN_USABLE_PAGES ≤ pc ∧
    f.len = RegionLayout.headerPages E pc ps * ps + ps * pc ∧
    f.usable_bytes = ps * pc := by
  have hpcps : pc * ps ≤ (U32 - 1) * (U32 - 1) :=
    Nat.mul_le_mul (by omega) (by omega)
  have hBlt : RegionLayout.headerPages E pc ps * ps < U32 := headerPages_mul_lt E pc ps
  have hmurb : u64 (pc * ps) = pc * ps :=
    u64_eq_of_lt (by unfold U32 U64 at *; omega)
  have hhb : u64 (RegionLayout.headerPages E pc ps * ps) =
      RegionLayout.headerPages E pc ps * ps :=
    u64_eq_of_lt (by unfold U32 U64 at *; omega)
  have hmrs : u64 (u64 (pc * ps) + u64 (RegionLayout.headerPages E pc ps * ps)) =
      pc * ps + RegionLayout.headerPages E pc ps * ps := by
    rw [hmurb, hhb]
    exact u64_eq_of_lt (by unfold U32 U64 at *; omega)
  rw [RegionLayout.full_region_layout] at h
  rcases hc : RegionLayout.calculate E
      (u64 (u64 (pc * ps) + u64 (RegionLayout.headerPages E pc ps * ps)))
      (u64 (pc * ps)) pc ps with _ | or
  · rw [hc] at h
    exact absurd h (by simp)
  rcases or with _ | r0
  · rw [hc] at h
    exact absurd h (by simp)
  rw [hc] at h
  have hf : r0 = f := Option.some.inj h
  subst hf
  rw [hmrs, hmurb] at hc
  obtain ⟨hpsz, hhp, hpsf, hnowrap, hassert, hnp, hnplt, hminle, hdiv⟩ :=
    RegionLayout.calculate_some_facts (by rw [← hmurb]; exact u64_lt _) hc
  have hminself : min (pc * ps + RegionLayout.headerPages E pc ps * ps)
      (pc * ps + RegionLayout.headerPages E pc ps * ps) =
      pc * ps + RegionLayout.headerPages E pc ps * ps := Nat.min_self _
  rw [hminself] at hassert hnp
  have hdivval : pc * ps / ps = pc :=
    Nat.mul_div_cancel _ (Nat.pos_of_ne_zero hpsz)
  have hnpval : r0.num_pages = pc := by
    rw [hnp, Nat.add_sub_cancel]
    exact hdivval
  rw [hdivval] at hdiv
  have husable : r0.usable_bytes = ps * pc := by
    rw [RegionLayout.usable_bytes, hpsf, hnpval]
  refine ⟨hnpval, hhp, hpsf, hpsz, by omega, hdiv, ?_, husable⟩
  rw [RegionLayout.len, hhp, hpsf, husable]
  refine u64_eq_of_lt ?_
  have := hpcps
  unfold U32 U64 at *
  have hcomm : ps * pc = pc * ps := Nat.mul_comm _ _
  omega

theorem trailing_header_matches_spec {tr : Option RegionLayout} {full : RegionLayout}
    (h : trailing_header_matches tr full = true) :
    ∀ r, tr = some r → r.header_pages = full.header_pages := by
  intro r hr
  subst hr
  simp only [trailing_header_matches, beq_iff_eq] at h
  exact h

theorem DatabaseLayout.calculate_ok_facts {E : Externals} {db d0 pc ps : Nat}
    {l : DatabaseLayout}
    (h : DatabaseLayout.calculate E db d0 pc ps = some (Except.ok l)) :
    ∃ full mr,
      RegionLayout.full_region_layout E pc ps = some full ∧
      maxRegions db (minHeaderSize E) full.len = some mr ∧
      l.full_region_layout = full ∧
      u64 (round_up_to_multiple_of (dbHeaderBytes E mr) ps +
        u64 (E.MIN_USABLE_PAGES * ps)) ≤ db ∧
      u32 (round_up_to_multiple_of (dbHeaderBytes E mr) ps) % ps = 0 ∧
      l.superheader_pages = u32 (round_up_to_multiple_of (dbHeaderBytes E mr) ps) / ps ∧
      (((min d0 db ≤ full.usable_bytes ∨
          u64sub db (round_up_to_multiple_of (dbHeaderBytes E mr) ps) ≤ full.len) ∧
        l.num_full_regions = 0 ∧
        ∃ r, RegionLayout.calculate E
            (u64sub db (round_up_to_multiple_of (dbHeaderBytes E mr) ps)) (min d0 db)
            pc ps = some (some r) ∧ l.trailing_region = some r) ∨
       (¬(min d0 db ≤ full.usable_bytes ∨
          u64sub db (round_up_to_multiple_of (dbHeaderBytes E mr) ps) ≤ full.len) ∧
        full.usable_bytes ≠ 0 ∧
        l.num_full_regions =
          min (u64sub db (round_up_to_multiple_of (dbHeaderBytes E mr) ps) / full.len)
            (min d0 db / full.usable_bytes) ∧
        l.num_full_regions ≠ 0 ∧ l.num_full_regions < U32 ∧
        RegionLayout.calculate E
          (u64sub (u64sub db (round_up_to_multiple_of (dbHeaderBytes E mr) ps))
            (u64 (l.num_full_regions * full.len)))
          (u64sub (min d0 db) (u64 (l.num_full_regions * full.usable_bytes))) pc ps =
          some l.trailing_region ∧
        ∀ r, l.trailing_region = some r → r.header_pages = full.header_pages)) := by
  unfold DatabaseLayout.calculate at h
  rcases hfull : RegionLayout.full_region_layout E pc ps with _ | full
  · rw [hfull] at h
    exact absurd h (by simp)
  rw [hfull] at h
  dsimp only at h
  rcases hmr : maxRegions db (minHeaderSize E) full.len with _ | mr
  · rw [hmr] at h
    exact absurd h (by simp)
  rw [hmr] at h
  dsimp only at h
  refine ⟨full, mr, rfl, hmr, ?_⟩
  by_cases hins : db < u64 (round_up_to_multiple_of (dbHeaderBytes E mr) ps +
      u64 (E.MIN_USABLE_PAGES * ps))
  · rw [if_pos hins] at h
    exact absurd h (by simp)
  rw [if_neg hins] at h
  push_neg at hins
  by_cases hbr : min d0 db ≤ full.usable_bytes ∨
      u64sub db (round_up_to_multiple_of (dbHeaderBytes E mr) ps) ≤ full.len
  · rw [if_pos hbr] at h
    rcases hrc : RegionLayout.calculate E
        (u64sub db (round_up_to_multiple_of (dbHeaderBytes E mr) ps)) (min d0 db)
        pc ps with _ | orr
    · rw [hrc] at h
      exact absurd h (by simp)
    rcases orr with _ | r
    · rw [hrc] at h
      exact absurd h (by simp)
    rw [hrc] at h
    dsimp only at h
    by_cases hdv : u32 (round_up_to_multiple_of (dbHeaderBytes E mr) ps) % ps = 0
    · rw [if_pos hdv] at h
      have hl := (Except.ok.inj (Option.some.inj h)).symm
      subst hl
      exact ⟨rfl, hins, hdv, rfl, Or.inl ⟨hbr, rfl, r, rfl, rfl⟩⟩
    · rw [if_neg hdv] at h
      exact absurd h (by simp)
  · rw [if_neg hbr] at h
    by_cases hU0 : full.usable_bytes = 0
    · rw [if_pos hU0] at h
      exact absurd h (by simp)
    rw [if_neg hU0] at h
    try dsimp only at h
    by_cases hn0 : min (u64sub db (round_up_to_multiple_of (dbHeaderBytes E mr) ps) /
        full.len) (min d0 db / full.usable_bytes) = 0
    · rw [if_pos hn0] at h
      exact absurd h (by simp)
    rw [if_neg hn0] at h
    rcases hrc : RegionLayout.calculate E
        (u64sub (u64sub db (round_up_to_multiple_of (dbHeaderBytes E mr) ps))
          (u64 (min (u64sub db (round_up_to_multiple_of (dbHeaderBytes E mr) ps) /
              full.len) (min d0 db / full.usable_bytes) * full.len)))
        (u64sub (min d0 db)
          (u64 (min (u64sub db (round_up_to_multiple_of (dbHeaderBytes E mr) ps) /
              full.len) (min d0 db / full.usable_bytes) * full.usable_bytes)))
        pc ps with _ | tr
    · rw [hrc] at h
      exact absurd h (by simp)
    rw [hrc] at h
    dsimp only at h
    by_cases hth : trailing_header_matches tr full = true
    · rw [if_pos hth] at h
      by_cases hu32 : min (u64sub db (round_up_to_multiple_of (dbHeaderBytes E mr) ps) /
          full.len) (min d0 db / full.usable_bytes) < U32
      · rw [if_pos hu32] at h
        by_cases hdv : u32 (round_up_to_multiple_of (dbHeaderBytes E mr) ps) % ps = 0
        · rw [if_pos hdv] at h
          have hl := (Except.ok.inj (Option.some.inj h)).symm
          subst hl
          exact ⟨rfl, hins, hdv, rfl,
            Or.inr ⟨hbr, hU0, rfl, hn0, hu32, hrc, trailing_header_matches_spec hth⟩⟩
        · rw [if_neg hdv] at h
          exact absurd h (by simp)
      · rw [if_neg hu32] at h
        exact absurd h (by simp)
    · rw [if_neg hth] at h
      exact absurd h (by simp)

theorem RegionLayout.full_region_layout_header {E : Externals} {pc ps : Nat}
    {f : RegionLayout} (h : RegionLayout.full_region_layout E pc ps = some f) :
    f.header_pages = RegionLayout.headerPages E pc ps ∧ f.page_size = ps ∧ ps ≠ 0 := by
  rw [RegionLayout.full_region_layout] at h
  rcases hc : RegionLayout.calculate E
      (u64 (u64 (pc * ps) + u64 (RegionLayout.headerPages E pc ps * ps)))
      (u64 (pc * ps)) pc ps with _ | orr
  · rw [hc] at h
    exact absurd h (by simp)
  rcases orr with _ | r0
  · rw [hc] at h
    exact absurd h (by simp)
  rw [hc] at h
  have hf : r0 = f := Option.some.inj h
  subst hf
  obtain ⟨hps, hhp, hpsf, _⟩ := RegionLayout.calculate_some_facts (u64_lt _) hc
  exact ⟨hhp, hpsf, hps⟩

theorem superheaderBytes_eq {E : Externals} {db pc ps : Nat} {full : RegionLayout}
    {mr : Nat}
    (hfull : RegionLayout.full_region_layout E pc ps = some full)
    (hmr : maxRegions db (minHeaderSize E) full.len = some mr) :
    superheaderBytes E db pc ps =
      some (round_up_to_multiple_of (dbHeaderBytes E mr) ps) := by
  unfold superheaderBytes
  rw [hfull]
  dsimp only
  rw [hmr]

theorem maxRegions_facts {db mhs L mr : Nat}
    (hdb : db < U64) (hmhs : mhs ≤ db) (hw : db - mhs + L < U64)
    (h : maxRegions db mhs L = some mr) :
    L ≠ 0 ∧ mr = (db - mhs + L - 1) / L ∧ mr < U32 := by
  unfold maxRegions at h
  by_cases hL : L = 0
  · rw [if_pos hL] at h
    exact absurd h (by simp)
  rw [if_neg hL] at h
  dsimp only at h
  have h1 : u64sub db mhs = db - mhs := u64sub_eq_sub hmhs hdb
  rw [h1] at h
  have h2 : u64 (db - mhs + L) = db - mhs + L := u64_eq_of_lt hw
  rw [h2] at h
  have h3 : u64sub (db - mhs + L) 1 = db - mhs + L - 1 :=
    u64sub_eq_sub (by omega) hw
  rw [h3] at h
  by_cases h4 : (db - mhs + L - 1) / L < U32
  · rw [if_pos h4] at h
    have h5 := (Option.some.inj h).symm
    subst h5
    exact ⟨hL, rfl, h4⟩
  · rw [if_neg h4] at h
    exact absurd h (by simp)

theorem DatabaseLayout.usable_le_desired {E : Externals} {db d0 pc ps : Nat}
    {l : DatabaseLayout} (hpc : pc < U32) (hps : ps < U32) (hdb : db < U64)
    (h : DatabaseLayout.calculate E db d0 pc ps = some (Except.ok l)) :
    l.usable_bytes ≤ d0 := by
  obtain ⟨full, mr, hfull, hmr, hlf, hins, hdvz, hsp, hbranch⟩ :=
    DatabaseLayout.calculate_ok_facts h
  have hDle : min d0 db ≤ d0 := Nat.min_le_left _ _
  have hDlt : min d0 db < U64 := lt_of_le_of_lt (Nat.min_le_right _ _) hdb
  obtain ⟨hnp, hfhp, hfps, hpsz, hminU, hminU2, hflen, hfusable⟩ :=
    RegionLayout.full_region_layout_facts hpc hps hfull
  rcases hbranch with ⟨hc, hnfr, r, hrc, htr⟩ | ⟨hc, hU0, hnfr, hn0, hu32, hrc, hth⟩
  · obtain ⟨_, _, _, husable⟩ := RegionLayout.calculate_some_len hDlt hrc
    rw [DatabaseLayout.usable_bytes, hnfr, htr]
    simp only [Option.map_some', Option.getD_some, Nat.zero_mul]
    have hz : u64 0 = 0 := by unfold u64 U64; omega
    rw [hz, Nat.zero_add, u64_eq_of_lt (by omega)]
    omega
  · have hnfrle : l.num_full_regions ≤ min d0 db / full.usable_bytes := by
      rw [hnfr]
      exact Nat.min_le_right _ _
    have hnfrU : l.num_full_regions * full.usable_bytes ≤ min d0 db := by
      calc l.num_full_regions * full.usable_bytes
          ≤ (min d0 db / full.usable_bytes) * full.usable_bytes :=
            Nat.mul_le_mul_right _ hnfrle
        _ ≤ min d0 db := Nat.div_mul_le_self _ _
    have hwnfrU : u64 (l.num_full_regions * full.usable_bytes) =
        l.num_full_regions * full.usable_bytes := u64_eq_of_lt (by omega)
    rcases htr : l.trailing_region with _ | r
    · rw [DatabaseLayout.usable_bytes, htr]
      simp only [Option.map_none', Option.getD_none]
      rw [hlf, hwnfrU, Nat.add_zero, u64_eq_of_lt (by omega)]
      omega
    · rw [htr] at hrc
      have hrd : u64sub (min d0 db) (u64 (l.num_full_regions * full.usable_bytes)) =
          min d0 db - l.num_full_regions * full.usable_bytes := by
        rw [hwnfrU]
        exact u64sub_eq_sub hnfrU hDlt
      obtain ⟨_, _, _, husable⟩ := RegionLayout.calculate_some_len (u64sub_lt _ _) hrc
      rw [hrd] at husable
      rw [DatabaseLayout.usable_bytes, htr]
      simp only [Option.map_some', Option.getD_some]
      rw [hlf, hwnfrU, u64_eq_of_lt (by omega)]
      omega

/-- Claim C4: whenever `RegionLayout::calculate` returns `Some(region)` (for a
`u64` target), the region's `len()` never exceeds `available_space`, and it
equals `min(available_space, desired_usable_bytes + header_bytes)` with the
usable part truncated down to whole pages. -/
theorem claim_C4 {E : Externals}
    {available_space desired_usable_bytes page_capacity page_size : Nat}
    {r : RegionLayout}
    (hd : desired_usable_bytes < U64)
    (h : RegionLayout.calculate E available_space desired_usable_bytes
      page_capacity page_size = some (some r)) :
    r.len ≤ available_space ∧
    r.len = RegionLayout.headerPages E page_capacity page_size * page_size +
      page_size * ((min available_space (desired_usable_bytes +
          RegionLayout.headerPages E page_capacity page_size * page_size) -
        RegionLayout.headerPages E page_capacity page_size * page_size) /
          page_size) := by
  obtain ⟨hlen, hle, _, _⟩ := RegionLayout.calculate_some_len hd h
  rw [Nat.min_comm] at hlen
  exact ⟨hle, hlen⟩

/-- Claim C8: `RegionLayout::full_region_layout(page_capacity, page_size)`
returns a layout with `num_pages == page_capacity` and `page_size` equal to
the input. -/
theorem claim_C8 {E : Externals} {page_capacity page_size : Nat}
    {f : RegionLayout}
    (hpc : page_capacity < U32) (hps : page_size < U32)
    (h : RegionLayout.full_region_layout E page_capacity page_size = some f) :
    f.num_pages = page_capacity ∧ f.page_size = page_size := by
  obtain ⟨hnp, _, hpsf, _⟩ := RegionLayout.full_region_layout_facts hpc hps h
  exact ⟨hnp, hpsf⟩

/-- Claim C8 witness: the theorem applied to the concrete scenario
`full_region_layout(512, 4096)`, which yields `num_pages == 512` and
`page_size == 4096`. -/
theorem claim_C8_witness :
    (RegionLayout.mk 512 1 4096).num_pages = 512 ∧
    (RegionLayout.mk 512 1 4096).page_size = 4096 :=
  @claim_C8 stubExternals 512 4096 (RegionLayout.mk 512 1 4096)
    (by decide) (by decide) (by decide)

/-- Claim C5: in every layout returned by `DatabaseLayout::calculate`, every
region that `region_layout` can return — in particular the trailing region —
has the same `header_pages` as `full_region_layout`, because the header size
is computed only from `page_capacity` and `page_size`. -/
theorem claim_C5 {E : Externals} {db_capacity desired pc ps : Nat}
    {l : DatabaseLayout}
    (hdb : db_capacity < U64)
    (h : DatabaseLayout.calculate E db_capacity desired pc ps =
      some (Except.ok l)) :
    ∀ i r, l.region_layout i = some r →
      r.header_pages = l.full_region_layout.header_pages := by
  obtain ⟨full, mr, hfull, hmr, hlf, hins, hdvz, hsp, hbranch⟩ :=
    DatabaseLayout.calculate_ok_facts h
  obtain ⟨hfhp, hfps, hpsz⟩ := RegionLayout.full_region_layout_header hfull
  have hdlt : min desired db_capacity < U64 :=
    lt_of_le_of_lt (Nat.min_le_right _ _) hdb
  intro i r hir
  rw [DatabaseLayout.region_layout] at hir
  split at hir
  · split at hir
    · rcases hbranch with ⟨hc, hnfr, r1, hrc, htr⟩ | ⟨hc, hU0, hnfr, hn0, hu32, hrc, hth⟩
      · rw [htr] at hir
        have hr1 : r1 = r := Option.some.inj hir
        subst hr1
        obtain ⟨_, hhpr, _⟩ := RegionLayout.calculate_some_facts hdlt hrc
        rw [hlf, hfhp]
        exact hhpr
      · rw [hlf]
        exact hth r hir
    · have hr : l.full_region_layout = r := Option.some.inj hir
      rw [← hr]
  · exact absurd hir (by simp)

/-- Claim C6 counterexample: with positive `page_capacity` and `page_size`
(the claim's stated preconditions), `RegionLayout::calculate` can still
abort: at `available_space = desired_usable_bytes = 2^50`, the computed
usable page count exceeds `u32::MAX`, so the
`try_into::<u32>().unwrap()` of `calculate_usable_pages` panics — the model
returns the abnormal-exit marker instead of `Some`/`None`. -/
theorem claim_C6_counterexample :
    RegionLayout.calculate stubExternals (2 ^ 50) (2 ^ 50) 512 4096 = none := by
  decide

/-- Claim C6 (amended): `RegionLayout::calculate` is a pure function of its
inputs returning `Some` or `None` with no panic, provided in addition to
positive `page_capacity`/`page_size` that (i) `desired_usable_bytes +
required_header_bytes` does not overflow `u64`, (ii) `required_header_bytes +
MIN_USABLE_PAGES * page_size` fits in `u32`, and (iii) the candidate region
size `min(available_space, desired_usable_bytes + required_header_bytes)`
stays below `required_header_bytes + 2^32 * page_size`, so the usable page
count fits in `u32`. -/
theorem claim_C6 {E : Externals}
    {available_space desired_usable_bytes page_capacity page_size : Nat}
    (hps : page_size ≠ 0)
    (hmin : 0 < E.MIN_USABLE_PAGES)
    (hminlt : E.MIN_USABLE_PAGES < U32)
    (hd : desired_usable_bytes +
      RegionLayout.headerPages E page_capacity page_size * page_size < U64)
    (hchk : RegionLayout.headerPages E page_capacity page_size * page_size +
      E.MIN_USABLE_PAGES * page_size < U32)
    (hfit : min available_space (desired_usable_bytes +
        RegionLayout.headerPages E page_capacity page_size * page_size) <
      RegionLayout.headerPages E page_capacity page_size * page_size +
        U32 * page_size) :
    (RegionLayout.calculate E available_space desired_usable_bytes
      page_capacity page_size).isSome := by
  rw [RegionLayout.calculate, if_neg hps]
  dsimp only
  have hB : RegionLayout.headerPages E page_capacity page_size * page_size < U32 :=
    headerPages_mul_lt E page_capacity page_size
  rw [u32_eq_of_lt hB]
  by_cases hc1 : desired_usable_bytes / page_size < E.MIN_USABLE_PAGES
  · rw [if_pos hc1]
    simp
  rw [if_neg hc1]
  push_neg at hc1
  have hpspos : 0 < page_size := Nat.pos_of_ne_zero hps
  have hmps : 0 < E.MIN_USABLE_PAGES * page_size := Nat.mul_pos hmin hpspos
  have hdges : E.MIN_USABLE_PAGES * page_size ≤ desired_usable_bytes := by
    calc E.MIN_USABLE_PAGES * page_size
        ≤ desired_usable_bytes / page_size * page_size :=
          Nat.mul_le_mul_right _ hc1
      _ ≤ desired_usable_bytes := Nat.div_mul_le_self _ _
  have hcollapse : u32 (RegionLayout.headerPages E page_capacity page_size * page_size +
      u32 (u32 E.MIN_USABLE_PAGES * page_size)) =
      RegionLayout.headerPages E page_capacity page_size * page_size +
        E.MIN_USABLE_PAGES * page_size := by
    rw [u32_eq_of_lt hminlt]
    rw [u32_eq_of_lt (show E.MIN_USABLE_PAGES * page_size < U32 by omega)]
    exact u32_eq_of_lt (by omega)
  rw [hcollapse]
  by_cases hc2 : available_space <
      RegionLayout.headerPages E page_capacity page_size * page_size +
        E.MIN_USABLE_PAGES * page_size
  · rw [if_pos hc2]
    simp
  rw [if_neg hc2]
  push_neg at hc2
  have hused : u64 (desired_usable_bytes +
      RegionLayout.headerPages E page_capacity page_size * page_size) =
      desired_usable_bytes +
        RegionLayout.headerPages E page_capacity page_size * page_size :=
    u64_eq_of_lt hd
  rw [hused]
  have hcup : RegionLayout.calculate_usable_pages E
      (min (desired_usable_bytes +
        RegionLayout.headerPages E page_capacity page_size * page_size)
        available_space) page_capacity page_size =
      some ((min (desired_usable_bytes +
        RegionLayout.headerPages E page_capacity page_size * page_size)
        available_space - RegionLayout.headerPages E page_capacity page_size *
          page_size) / page_size) := by
    rw [RegionLayout.calculate_usable_pages]
    dsimp only
    rw [if_pos (by omega)]
    rw [if_pos (by rw [Nat.div_lt_iff_lt_mul hpspos]; omega)]
  rw [hcup]
  dsimp only
  split
  · simp
  · simp

/-- Claim C1: every capacity-insufficiency condition at the superheader
check is surfaced as the recoverable `Err(OutOfSpace)`, not a panic; in
particular any `db_capacity` below the minimum header size (given the
realistic bound that the minimum header fits in `MIN_USABLE_PAGES` pages)
or below `superheader + MIN_USABLE_PAGES` pages yields `Err(OutOfSpace)`. -/
theorem claim_C1 {E : Externals} {db_capacity desired pc ps shb : Nat}
    (hsh : superheaderBytes E db_capacity pc ps = some shb)
    (hmhs : minHeaderSize E ≤ E.MIN_USABLE_PAGES * ps)
    (hnw : shb + E.MIN_USABLE_PAGES * ps < U64)
    (hsmall : db_capacity < minHeaderSize E ∨
      db_capacity < shb + E.MIN_USABLE_PAGES * ps) :
    DatabaseLayout.calculate E db_capacity desired pc ps =
      some (Except.error DbError.OutOfSpace) := by
  unfold superheaderBytes at hsh
  rcases hfull : RegionLayout.full_region_layout E pc ps with _ | full
  · rw [hfull] at hsh
    exact absurd hsh (by simp)
  rw [hfull] at hsh
  dsimp only at hsh
  rcases hmr : maxRegions db_capacity (minHeaderSize E) full.len with _ | mr
  · rw [hmr] at hsh
    exact absurd hsh (by simp)
  rw [hmr] at hsh
  have hshb : round_up_to_multiple_of (dbHeaderBytes E mr) ps = shb :=
    Option.some.inj hsh
  unfold DatabaseLayout.calculate
  rw [hfull]
  dsimp only
  rw [hmr]
  dsimp only
  rw [hshb]
  have hsmall2 : db_capacity < shb + E.MIN_USABLE_PAGES * ps := by
    rcases hsmall with hl | hr
    · omega
    · exact hr
  rw [if_pos ?_]
  rw [u64_eq_of_lt (show E.MIN_USABLE_PAGES * ps < U64 by omega)]
  rw [u64_eq_of_lt hnw]
  exact hsmall2

/-- Claim C1 witness: with the stub externals, a 100-byte capacity (below the
248-byte minimum header size) yields `Err(OutOfSpace)` and no panic. -/
theorem claim_C1_witness :
    DatabaseLayout.calculate stubExternals 100 0 512 4096 =
      some (Except.error DbError.OutOfSpace) :=
  @claim_C1 stubExternals 100 0 512 4096 4096 (by decide) (by decide) (by decide)
    (Or.inl (by decide))

/-- Claim C9: `FileLock::new` classifies a would-block `flock` failure as the
distinct `DatabaseAlreadyOpen`, classifies every other failure as a generic
wrapped OS error, and over the spec-modelled advisory-lock state two
acquisitions on the same file yield success then `DatabaseAlreadyOpen`. -/
theorem claim_C9 :
    (∀ res k, res ≠ 0 → k = IoErrorKind.WouldBlock →
      FileLock.new res k = Except.error DbError.DatabaseAlreadyOpen) ∧
    (∀ res k, res ≠ 0 → k ≠ IoErrorKind.WouldBlock →
      FileLock.new res k = Except.error (DbError.IoFailure k)) ∧
    (FileLock.acquire false).1 = Except.ok () ∧
    (FileLock.acquire (FileLock.acquire false).2).1 =
      Except.error DbError.DatabaseAlreadyOpen := by
  refine ⟨?_, ?_, rfl, rfl⟩
  · intro res k hres hk
    subst hk
    rw [FileLock.new, if_pos hres, if_pos rfl]
  · intro res k hres hk
    rw [FileLock.new, if_pos hres, if_neg hk]

/-- Claim C9 witness: the classification theorem applied at concrete failed
acquisitions: a would-block failure and a permission failure. -/
theorem claim_C9_witness :
    FileLock.new (-1) IoErrorKind.WouldBlock =
      Except.error DbError.DatabaseAlreadyOpen ∧
    FileLock.new (-1) IoErrorKind.PermissionDenied =
      Except.error (DbError.IoFailure IoErrorKind.PermissionDenied) :=
  ⟨claim_C9.1 (-1) IoErrorKind.WouldBlock (by decide) rfl,
   claim_C9.2.1 (-1) IoErrorKind.PermissionDenied (by decide) (by decide)⟩

/-- Claim C7 counterexample: the claim asserts some valid input makes
`DatabaseLayout::calculate` return `Ok` with `usable_bytes()` strictly above
`desired_usable_bytes`; no such input exists, for any externals: the desired
byte count is an upper bound on every successful layout's usable bytes. -/
theorem claim_C7_counterexample :
    ¬ ∃ (E : Externals) (db_capacity desired pc ps : Nat) (l : DatabaseLayout),
      0 < pc ∧ 0 < ps ∧ pc < U32 ∧ ps < U32 ∧ db_capacity < U64 ∧
      DatabaseLayout.calculate E db_capacity desired pc ps =
        some (Except.ok l) ∧
      desired < l.usable_bytes := by
  rintro ⟨E, db, d0, pc, ps, l, hpc0, hps0, hpc, hps, hdb, hcalc, hlt⟩
  exact absurd (DatabaseLayout.usable_le_desired hpc hps hdb hcalc) (by omega)

/-- Claim C7 (amended): the desired usable byte count is a target the result
may fall short of but never exceeds: every `Ok` layout satisfies
`usable_bytes() ≤ desired_usable_bytes`. -/
theorem claim_C7 {E : Externals} {db_capacity desired pc ps : Nat}
    {l : DatabaseLayout}
    (hpc : pc < U32) (hps : ps < U32) (hdb : db_capacity < U64)
    (h : DatabaseLayout.calculate E db_capacity desired pc ps =
      some (Except.ok l)) :
    l.usable_bytes ≤ desired :=
  DatabaseLayout.usable_le_desired hpc hps hdb h

theorem maxRegions_some_ne_zero {db mhs L mr : Nat}
    (h : maxRegions db mhs L = some mr) : L ≠ 0 := by
  intro hL
  rw [maxRegions, if_pos hL] at h
  exact absurd h (by simp)

theorem DatabaseLayout.calculate_ok_geometry {E : Externals}
    {db d0 pc ps shb : Nat} {l : DatabaseLayout}
    (hdb : db < U64)
    (hsh : superheaderBytes E db pc ps = some shb)
    (hnw : shb + E.MIN_USABLE_PAGES * ps < U64)
    (h : DatabaseLayout.calculate E db d0 pc ps = some (Except.ok l)) :
    ∃ full mr,
      RegionLayout.full_region_layout E pc ps = some full ∧
      maxRegions db (minHeaderSize E) full.len = some mr ∧
      round_up_to_multiple_of (dbHeaderBytes E mr) ps = shb ∧
      l.full_region_layout = full ∧
      shb + E.MIN_USABLE_PAGES * ps ≤ db ∧
      l.superheader_bytes = u32 shb ∧
      (((min d0 db ≤ full.usable_bytes ∨ db - shb ≤ full.len) ∧
        l.num_full_regions = 0 ∧
        ∃ r, RegionLayout.calculate E (db - shb) (min d0 db) pc ps =
          some (some r) ∧ l.trailing_region = some r) ∨
       (¬(min d0 db ≤ full.usable_bytes ∨ db - shb ≤ full.len) ∧
        full.usable_bytes ≠ 0 ∧
        l.num_full_regions = min ((db - shb) / full.len)
          (min d0 db / full.usable_bytes) ∧
        l.num_full_regions ≠ 0 ∧ l.num_full_regions < U32 ∧
        l.num_full_regions * full.len ≤ db - shb ∧
        l.num_full_regions * full.usable_bytes ≤ min d0 db ∧
        RegionLayout.calculate E (db - shb - l.num_full_regions * full.len)
          (min d0 db - l.num_full_regions * full.usable_bytes) pc ps =
          some l.trailing_region ∧
        ∀ r, l.trailing_region = some r →
          r.header_pages = full.header_pages)) := by
  obtain ⟨full, mr, hfull, hmr, hlf, hins, hdvz, hsp, hbranch⟩ :=
    DatabaseLayout.calculate_ok_facts h
  have hsh2 := superheaderBytes_eq hfull hmr
  rw [hsh] at hsh2
  have hshb : round_up_to_multiple_of (dbHeaderBytes E mr) ps = shb :=
    (Option.some.inj hsh2).symm
  rw [hshb] at hins hdvz hsp hbranch
  have hge : shb + E.MIN_USABLE_PAGES * ps ≤ db := by
    rw [u64_eq_of_lt (show E.MIN_USABLE_PAGES * ps < U64 by omega),
      u64_eq_of_lt hnw] at hins
    exact hins
  have hshble : shb ≤ db := by omega
  have hsub : u64sub db shb = db - shb := u64sub_eq_sub hshble hdb
  rw [hsub] at hbranch
  obtain ⟨hfhp, hfps, hpsz⟩ := RegionLayout.full_region_layout_header hfull
  have hsbacc : l.superheader_bytes = u32 shb := by
    rw [DatabaseLayout.superheader_bytes, hlf, hfps, hsp]
    rw [Nat.div_mul_cancel (Nat.dvd_of_mod_eq_zero hdvz)]
    exact u32_eq_of_lt (by
      have := u32_lt shb
      unfold u32
      exact Nat.mod_lt _ U32_pos)
  refine ⟨full, mr, hfull, hmr, hshb, hlf, hge, hsbacc, ?_⟩
  rcases hbranch with ⟨hc, hnfr, r, hrc, htr⟩ | ⟨hc, hU0, hnfr, hn0, hu32, hrc, hth⟩
  · exact Or.inl ⟨hc, hnfr, r, hrc, htr⟩
  · have hL0 : full.len ≠ 0 := maxRegions_some_ne_zero hmr
    have hnfrle : l.num_full_regions ≤ (db - shb) / full.len := by
      rw [hnfr]
      exact Nat.min_le_left _ _
    have hnfrL : l.num_full_regions * full.len ≤ db - shb :=
      le_trans (Nat.mul_le_mul_right _ hnfrle) (Nat.div_mul_le_self _ _)
    have hnfrle2 : l.num_full_regions ≤ min d0 db / full.usable_bytes := by
      rw [hnfr]
      exact Nat.min_le_right _ _
    have hnfrU : l.num_full_regions * full.usable_bytes ≤ min d0 db :=
      le_trans (Nat.mul_le_mul_right _ hnfrle2) (Nat.div_mul_le_self _ _)
    have hDle : min d0 db ≤ db := Nat.min_le_right _ _
    rw [u64_eq_of_lt (show l.num_full_regions * full.len < U64 by omega),
      u64sub_eq_sub hnfrL (by omega),
      u64_eq_of_lt (show l.num_full_regions * full.usable_bytes < U64 by omega),
      u64sub_eq_sub hnfrU (by omega)] at hrc
    exact Or.inr ⟨hc, hU0, hnfr, hn0, hu32, hnfrL, hnfrU, hrc, hth⟩

/-- Claim C3: an `Ok` result of `DatabaseLayout::calculate` is a single-region
plan (zero full regions and exactly a trailing region) precisely when the
desired usable bytes fit in one full region or the capacity left after the
superheader cannot fit beyond one full region; otherwise `num_full_regions`
is at least 1. -/
theorem claim_C3 {E : Externals} {db_capacity desired pc ps shb : Nat}
    {full : RegionLayout} {l : DatabaseLayout}
    (hpc : pc < U32) (hps : ps < U32) (hdb : db_capacity < U64)
    (hfull : RegionLayout.full_region_layout E pc ps = some full)
    (hsh : superheaderBytes E db_capacity pc ps = some shb)
    (hnw : shb + E.MIN_USABLE_PAGES * ps < U64)
    (h : DatabaseLayout.calculate E db_capacity desired pc ps =
      some (Except.ok l)) :
    ((l.num_full_regions = 0 ∧ l.trailing_region.isSome) ↔
      (desired ≤ full.usable_bytes ∨ db_capacity - shb ≤ full.len)) ∧
    (¬(desired ≤ full.usable_bytes ∨ db_capacity - shb ≤ full.len) →
      1 ≤ l.num_full_regions) := by
  obtain ⟨full', mr, hfull', hmr, hshb, hlf, hge, hsb, hbranch⟩ :=
    DatabaseLayout.calculate_ok_geometry hdb hsh hnw h
  have hfe : full = full' := Option.some.inj (hfull.symm.trans hfull')
  subst hfe
  obtain ⟨hnp, hfhp, hfps, hpsz, hminU, hminU2, hflen, hfusable⟩ :=
    RegionLayout.full_region_layout_facts hpc hps hfull
  have hUL : full.usable_bytes ≤ full.len := by
    rw [hflen, hfusable]
    omega
  have hciff : (min desired db_capacity ≤ full.usable_bytes ∨
      db_capacity - shb ≤ full.len) ↔
      (desired ≤ full.usable_bytes ∨ db_capacity - shb ≤ full.len) := by
    omega
  rcases hbranch with ⟨hc, hnfr, r, hrc, htr⟩ | ⟨hc, hU0, hnfr, hn0, _, _, _, _, _⟩
  · refine ⟨⟨fun _ => hciff.mp hc, fun _ => ⟨hnfr, by rw [htr]; rfl⟩⟩, ?_⟩
    intro hnc
    exact absurd (hciff.mp hc) hnc
  · refine ⟨⟨fun hl => absurd hl.1 hn0, fun hr => absurd (hciff.mpr hr) hc⟩, ?_⟩
    intro _
    omega

/-- Claim C10: every layout returned by `DatabaseLayout::calculate` has at
least one region, and `region_layout` at index `num_regions() - 1` — the
region that `len()` addresses — is defined (no assertion fires). -/
theorem claim_C10 {E : Externals} {db_capacity desired pc ps shb : Nat}
    {full : RegionLayout} {l : DatabaseLayout}
    (hpc : pc < U32) (hps : ps < U32) (hdb : db_capacity < U64)
    (hfull : RegionLayout.full_region_layout E pc ps = some full)
    (hsh : superheaderBytes E db_capacity pc ps = some shb)
    (hnw : shb + E.MIN_USABLE_PAGES * ps < U64)
    (hmh : minHeaderSize E ≤ shb)
    (hw2 : db_capacity - minHeaderSize E + full.len < U64)
    (h : DatabaseLayout.calculate E db_capacity desired pc ps =
      some (Except.ok l)) :
    1 ≤ l.num_regions ∧ (l.region_layout (l.num_regions - 1)).isSome := by
  obtain ⟨full', mr, hfull', hmr, hshb, hlf, hge, hsb, hbranch⟩ :=
    DatabaseLayout.calculate_ok_geometry hdb hsh hnw h
  have hfe : full = full' := Option.some.inj (hfull.symm.trans hfull')
  subst hfe
  have hL0 : full.len ≠ 0 := maxRegions_some_ne_zero hmr
  rcases hbranch with ⟨hc, hnfr, r, hrc, htr⟩ | ⟨hc, hU0, hnfr, hn0, hu32, hnfrL, hnfrU, hrc, hth⟩
  · have hnr : l.num_regions = 1 := by
      rw [DatabaseLayout.num_regions, htr, hnfr]
      simp only [Option.isSome_some, if_true]
      exact u32_eq_of_lt (by unfold U32; omega)
    refine ⟨by omega, ?_⟩
    rw [hnr]
    rw [DatabaseLayout.region_layout, if_pos (by omega), if_pos (by omega), htr]
    rfl
  · rcases htr : l.trailing_region with _ | r
    · have hnr : l.num_regions = l.num_full_regions := by
        rw [DatabaseLayout.num_regions, htr]
        simp only [Option.isSome_none]
        rfl
      refine ⟨by omega, ?_⟩
      rw [hnr, DatabaseLayout.region_layout, if_pos (by omega),
        if_neg (by omega)]
      rfl
    · rw [htr] at hrc
      obtain ⟨_, _, _, _, hassert, _⟩ := RegionLayout.calculate_some_facts
        (show min desired db_capacity -
          l.num_full_regions * full.usable_bytes < U64 by
            have := Nat.min_le_right desired db_capacity
            omega) hrc
      have hposavail : 1 ≤ db_capacity - shb - l.num_full_regions * full.len := by
        have h1 := Nat.min_le_right
          (min desired db_capacity - l.num_full_regions * full.usable_bytes +
            RegionLayout.headerPages E pc ps * ps)
          (db_capacity - shb - l.num_full_regions * full.len)
        omega
      obtain ⟨_, hmrval, hmrlt⟩ := maxRegions_facts hdb (by omega) hw2 hmr
      have hsucc : (l.num_full_regions + 1) * full.len =
          l.num_full_regions * full.len + full.len := Nat.succ_mul _ _
      have hnfr1 : l.num_full_regions + 1 ≤ mr := by
        rw [hmrval, Nat.le_div_iff_mul_le (Nat.pos_of_ne_zero hL0), hsucc]
        omega
      have hnr : l.num_regions = l.num_full_regions + 1 := by
        rw [DatabaseLayout.num_regions, htr]
        simp only [Option.isSome_some, if_true]
        exact u32_eq_of_lt (by omega)
      refine ⟨by omega, ?_⟩
      rw [hnr, DatabaseLayout.region_layout, if_pos (by omega),
        if_pos (by omega), htr]
      rfl

theorem U32_lt_U64 : U32 < U64 := by unfold U32 U64; omega

theorem u64_zero : u64 0 = 0 := by unfold u64; exact Nat.zero_mod _

/-- Claim C2: every `Ok` layout of `DatabaseLayout::calculate` fits in the
requested capacity: `len()` is defined and at most `db_capacity`. -/
theorem claim_C2 {E : Externals} {db_capacity desired pc ps shb : Nat}
    {full : RegionLayout} {l : DatabaseLayout}
    (hpc : pc < U32) (hps : ps < U32) (hdb : db_capacity < U64)
    (hfull : RegionLayout.full_region_layout E pc ps = some full)
    (hsh : superheaderBytes E db_capacity pc ps = some shb)
    (hnw : shb + E.MIN_USABLE_PAGES * ps < U64)
    (hmh : minHeaderSize E ≤ shb)
    (hw2 : db_capacity - minHeaderSize E + full.len < U64)
    (h : DatabaseLayout.calculate E db_capacity desired pc ps =
      some (Except.ok l)) :
    ∃ n, l.len = some n ∧ n ≤ db_capacity := by
  obtain ⟨full', mr, hfull', hmr, hshb, hlf, hge, hsb, hbranch⟩ :=
    DatabaseLayout.calculate_ok_geometry hdb hsh hnw h
  have hfe : full = full' := Option.some.inj (hfull.symm.trans hfull')
  subst hfe
  have hL0 : full.len ≠ 0 := maxRegions_some_ne_zero hmr
  have hsble : u32 shb ≤ shb := Nat.mod_le _ _
  have hsblt : u32 shb < U32 := u32_lt _
  have hDlt : min desired db_capacity < U64 :=
    lt_of_le_of_lt (Nat.min_le_right _ _) hdb
  rcases hbranch with ⟨hc, hnfr, r, hrc, htr⟩ | ⟨hc, hU0, hnfr, hn0, hu32, hnfrL, hnfrU, hrc, hth⟩
  · obtain ⟨_, hrle, _, _⟩ := RegionLayout.calculate_some_len hDlt hrc
    have hnr : l.num_regions = 1 := by
      rw [DatabaseLayout.num_regions, htr, hnfr]
      simp only [Option.isSome_some, if_true]
      exact u32_eq_of_lt (by unfold U32; omega)
    have hbase : l.region_base_address (l.num_regions - 1) = some (u32 shb) := by
      rw [hnr]
      rw [DatabaseLayout.region_base_address, if_pos (by omega)]
      simp only [Nat.sub_self, Nat.zero_mul, u64_zero, Nat.add_zero, hsb]
      rw [u64_eq_of_lt (lt_trans hsblt U32_lt_U64)]
    have hlay : l.region_layout (l.num_regions - 1) = some r := by
      rw [hnr]
      rw [DatabaseLayout.region_layout, if_pos (by omega), if_pos (by omega), htr]
    refine ⟨u32 shb + r.len, ?_, by omega⟩
    rw [DatabaseLayout.len, if_neg (by omega)]
    dsimp only
    rw [hbase, hlay]
    dsimp only
    rw [u64_eq_of_lt (by omega)]
  · rcases htr : l.trailing_region with _ | r
    · have hnr : l.num_regions = l.num_full_regions := by
        rw [DatabaseLayout.num_regions, htr]
        simp only [Option.isSome_none]
        rfl
      have hmulsub : (l.num_full_regions - 1) * full.len + full.len =
          l.num_full_regions * full.len := by
        have h1 : l.num_full_regions - 1 + 1 = l.num_full_regions := by omega
        calc (l.num_full_regions - 1) * full.len + full.len
            = (l.num_full_regions - 1 + 1) * full.len := (Nat.succ_mul _ _).symm
          _ = l.num_full_regions * full.len := by rw [h1]
      have hbase : l.region_base_address (l.num_regions - 1) =
          some (u32 shb + (l.num_full_regions - 1) * full.len) := by
        rw [hnr]
        rw [DatabaseLayout.region_base_address, if_pos (by omega), hsb, hlf]
        rw [u64_eq_of_lt (show (l.num_full_regions - 1) * full.len < U64 by
          have h2 : (l.num_full_regions - 1) * full.len ≤
              l.num_full_regions * full.len := Nat.mul_le_mul_right _ (by omega)
          omega)]
        rw [u64_eq_of_lt (by
          have h2 : (l.num_full_regions - 1) * full.len ≤
              l.num_full_regions * full.len := Nat.mul_le_mul_right _ (by omega)
          omega)]
      have hlay : l.region_layout (l.num_regions - 1) =
          some l.full_region_layout := by
        rw [hnr]
        rw [DatabaseLayout.region_layout, if_pos (by omega), if_neg (by omega)]
      refine ⟨u32 shb + (l.num_full_regions - 1) * full.len + full.len, ?_, by omega⟩
      rw [DatabaseLayout.len, if_neg (by omega)]
      dsimp only
      rw [hbase, hlay]
      dsimp only
      rw [hlf]
      rw [u64_eq_of_lt (by omega)]
    · rw [htr] at hrc
      have hd2 : min desired db_capacity -
          l.num_full_regions * full.usable_bytes < U64 := by omega
      obtain ⟨_, hrle, _, _⟩ := RegionLayout.calculate_some_len hd2 hrc
      obtain ⟨_, _, _, _, hassert, _⟩ := RegionLayout.calculate_some_facts hd2 hrc
      have hposavail : 1 ≤ db_capacity - shb - l.num_full_regions * full.len := by
        have h1 := Nat.min_le_right
          (min desired db_capacity - l.num_full_regions * full.usable_bytes +
            RegionLayout.headerPages E pc ps * ps)
          (db_capacity - shb - l.num_full_regions * full.len)
        omega
      obtain ⟨_, hmrval, hmrlt⟩ := maxRegions_facts hdb (by omega) hw2 hmr
      have hsucc : (l.num_full_regions + 1) * full.len =
          l.num_full_regions * full.len + full.len := Nat.succ_mul _ _
      have hnfr1 : l.num_full_regions + 1 ≤ mr := by
        rw [hmrval, Nat.le_div_iff_mul_le (Nat.pos_of_ne_zero hL0), hsucc]
        omega
      have hnr : l.num_regions = l.num_full_regions + 1 := by
        rw [DatabaseLayout.num_regions, htr]
        simp only [Option.isSome_some, if_true]
        exact u32_eq_of_lt (by omega)
      have hbase : l.region_base_address (l.num_regions - 1) =
          some (u32 shb + l.num_full_regions * full.len) := by
        rw [hnr]
        rw [DatabaseLayout.region_base_address, if_pos (by omega), hsb, hlf]
        simp only [Nat.add_sub_cancel]
        rw [u64_eq_of_lt (show l.num_full_regions * full.len < U64 by omega)]
        rw [u64_eq_of_lt (by omega)]
      have hlay : l.region_layout (l.num_regions - 1) = some r := by
        rw [hnr]
        rw [DatabaseLayout.region_layout, if_pos (by omega)]
        simp only [Nat.add_sub_cancel]
        rw [if_pos trivial]
        exact htr
      refine ⟨u32 shb + l.num_full_regions * full.len + r.len, ?_, by omega⟩
      rw [DatabaseLayout.len, if_neg (by omega)]
      dsimp only
      rw [hbase, hlay]
      dsimp only
      rw [u64_eq_of_lt (by omega)]

/-- Claim C2 witness: the theorem applied to the concrete plan of a
10000-byte capacity with a 3000-byte target over 16-page, 16-byte-page
regions. -/
theorem claim_C2_witness :
    ∃ n, (DatabaseLayout.mk 278 64 4448 (RegionLayout.mk 16 8 16) 11
      (some (RegionLayout.mk 11 8 16))).len = some n ∧ n ≤ 10000 :=
  @claim_C2 stubExternals 10000 3000 16 16 4448 (RegionLayout.mk 16 8 16)
    (DatabaseLayout.mk 278 64 4448 (RegionLayout.mk 16 8 16) 11
      (some (RegionLayout.mk 11 8 16)))
    (by decide) (by decide) (by decide) (by decide) (by decide) (by decide)
    (by decide) (by decide) rfl

/-- Claim C3 witness: the theorem applied at the same concrete multi-region
plan, whose condition correctly selects the multi-region branch. -/
theorem claim_C3_witness :
    (((DatabaseLayout.mk 278 64 4448 (RegionLayout.mk 16 8 16) 11
        (some (RegionLayout.mk 11 8 16))).num_full_regions = 0 ∧
      (DatabaseLayout.mk 278 64 4448 (RegionLayout.mk 16 8 16) 11
        (some (RegionLayout.mk 11 8 16))).trailing_region.isSome) ↔
      (3000 ≤ (RegionLayout.mk 16 8 16).usable_bytes ∨
        10000 - 4448 ≤ (RegionLayout.mk 16 8 16).len)) ∧
    (¬(3000 ≤ (RegionLayout.mk 16 8 16).usable_bytes ∨
        10000 - 4448 ≤ (RegionLayout.mk 16 8 16).len) →
      1 ≤ (DatabaseLayout.mk 278 64 4448 (RegionLayout.mk 16 8 16) 11
        (some (RegionLayout.mk 11 8 16))).num_full_regions) :=
  @claim_C3 stubExternals 10000 3000 16 16 4448 (RegionLayout.mk 16 8 16)
    (DatabaseLayout.mk 278 64 4448 (RegionLayout.mk 16 8 16) 11
      (some (RegionLayout.mk 11 8 16)))
    (by decide) (by decide) (by decide) (by decide) (by decide) (by decide)
    rfl

/-- Claim C4 witness: the theorem applied to a concrete region plan:
344 bytes of space, a 200-byte target, 16-page capacity, 16-byte pages. -/
theorem claim_C4_witness :
    (RegionLayout.mk 12 8 16).len ≤ 344 ∧
    (RegionLayout.mk 12 8 16).len =
      RegionLayout.headerPages stubExternals 16 16 * 16 +
      16 * ((min 344 (200 + RegionLayout.headerPages stubExternals 16 16 * 16) -
        RegionLayout.headerPages stubExternals 16 16 * 16) / 16) :=
  @claim_C4 stubExternals 344 200 16 16 (RegionLayout.mk 12 8 16)
    (by decide) (by decide)

/-- Claim C5 witness: the theorem applied at the concrete plan's trailing
region (index 11): its header page count equals the full layout's. -/
theorem claim_C5_witness :
    (RegionLayout.mk 11 8 16).header_pages =
      (DatabaseLayout.mk 278 64 4448 (RegionLayout.mk 16 8 16) 11
        (some (RegionLayout.mk 11 8 16))).full_region_layout.header_pages :=
  @claim_C5 stubExternals 10000 3000 16 16
    (DatabaseLayout.mk 278 64 4448 (RegionLayout.mk 16 8 16) 11
      (some (RegionLayout.mk 11 8 16)))
    (by decide) rfl 11 (RegionLayout.mk 11 8 16) (by decide)

/-- Claim C6 witness: the amended no-panic theorem applied at a concrete
in-bounds input. -/
theorem claim_C6_witness :
    (RegionLayout.calculate stubExternals 344 200 16 16).isSome :=
  @claim_C6 stubExternals 344 200 16 16
    (by decide) (by decide) (by decide) (by decide) (by decide) (by decide)

/-- Claim C7 witness: the amended theorem applied at the concrete plan:
2992 usable bytes never exceed the 3000-byte target. -/
theorem claim_C7_witness :
    (DatabaseLayout.mk 278 64 4448 (RegionLayout.mk 16 8 16) 11
      (some (RegionLayout.mk 11 8 16))).usable_bytes ≤ 3000 :=
  @claim_C7 stubExternals 10000 3000 16 16
    (DatabaseLayout.mk 278 64 4448 (RegionLayout.mk 16 8 16) 11
      (some (RegionLayout.mk 11 8 16)))
    (by decide) (by decide) (by decide) rfl

/-- Claim C10 witness: the theorem applied at the concrete plan: it has 12
regions and its last region is defined. -/
theorem claim_C10_witness :
    1 ≤ (DatabaseLayout.mk 278 64 4448 (RegionLayout.mk 16 8 16) 11
      (some (RegionLayout.mk 11 8 16))).num_regions ∧
    ((DatabaseLayout.mk 278 64 4448 (RegionLayout.mk 16 8 16) 11
      (some (RegionLayout.mk 11 8 16))).region_layout
        ((DatabaseLayout.mk 278 64 4448 (RegionLayout.mk 16 8 16) 11
          (some (RegionLayout.mk 11 8 16))).num_regions - 1)).isSome :=
  @claim_C10 stubExternals 10000 3000 16 16 4448 (RegionLayout.mk 16 8 16)
    (DatabaseLayout.mk 278 64 4448 (RegionLayout.mk 16 8 16) 11
      (some (RegionLayout.mk 11 8 16)))
    (by decide) (by decide) (by decide) (by decide) (by decide) (by decide)
    (by decide) (by decide) rfl

end Redb
